import Mathlib

set_option autoImplicit false

/-!
Verification of the Strapi JavaScript SDK HTTP core against its
natural-language specification.

The development shallowly embeds the relevant source components:

- `src/http/interceptor-manager.ts` (`HttpInterceptorManager`): a generic
  ordered chain of fulfilled/rejected handlers over a payload type.
- `src/http/client.ts` (`HttpClient`): base-URL management, the `request`
  lifecycle with its timer/abort-signal discipline, and the static
  status-code-to-error mapping.
- `src/interceptors/http.ts` (`HttpInterceptors`, `AuthInterceptors`): the
  concrete interceptors registered by the `Strapi` client.
- `src/auth/manager.ts` (`AuthManager`), `src/auth/factory`
  (`AuthProviderFactory`) and the users-permissions auth provider.
- `src/validators/url.ts` (`URLValidator`) and `src/formatters`
  (`PathFormatter`).

JavaScript exceptions are modelled with `Except`, mutable fields with explicit
state passing, and asynchronous calls as sequential ones (the event loop gives
each `await` chain a deterministic sequential semantics).
-/

namespace StrapiSDK

/-! ## Generic interceptor manager (src/http/interceptor-manager.ts)

A handler pairs an optional `fulfilled` transform with an optional `rejected`
recovery step.  `T` is the payload type of the chain and `E` the type of
thrown values. -/

structure Handler (T E : Type) where
  fulfilled : Option (T → Except E T)
  rejected : Option (E → Except E T)

/-- Ordered handler chain of `HttpInterceptorManager`; `_handlers` starts
empty. -/
structure HttpInterceptorManager (T E : Type) where
  handlers : List (Handler T E) := []

/-- Translation of `HttpInterceptorManager.use`: appends one entry to the
handler chain. -/
def HttpInterceptorManager.use {T E : Type} (m : HttpInterceptorManager T E)
    (fulfilled : Option (T → Except E T)) (rejected : Option (E → Except E T)) :
    HttpInterceptorManager T E :=
  ⟨m.handlers ++ [⟨fulfilled, rejected⟩]⟩

/-- Translation of the loop body of `HttpInterceptorManager.execute`: fold the
handlers left to right over the running value.  A `fulfilled` step that throws
is recovered by the `rejected` handler of the same entry when present;
otherwise the thrown value propagates. -/
def executeHandlers {T E : Type} : List (Handler T E) → T → Except E T
  | [], out => .ok out
  | h :: rest, out =>
    match h.fulfilled with
    | none => executeHandlers rest out
    | some f =>
      match f out with
      | .ok v => executeHandlers rest v
      | .error e =>
        match h.rejected with
        | none => .error e
        | some r =>
          match r e with
          | .ok v => executeHandlers rest v
          | .error e2 => .error e2

/-- Translation of `HttpInterceptorManager.execute`. -/
def HttpInterceptorManager.execute {T E : Type} (m : HttpInterceptorManager T E)
    (value : T) : Except E T :=
  executeHandlers m.handlers value

/-! ## HTTP data model and error taxonomy -/

/-- Abort signals: a caller- or interceptor-supplied signal, or the signal of
the abort controller `HttpClient.request` ties to its timeout timer. -/
inductive Sig where
  | caller (n : Nat)
  | timer
deriving DecidableEq, Repr

/-- Model of a fetch `Request`: target URL, ordered header list, optional
abort signal. -/
structure ReqP where
  url : String
  headers : List (String × String) := []
  signal : Option Sig := none
deriving DecidableEq, Repr

/-- Model of a fetch `Response`: only the status code matters to the SDK
logic modelled here. -/
structure Resp where
  status : Nat
deriving DecidableEq, Repr

/-- The fetch API derives `Response.ok` from the status code being in the 2xx
range. -/
def Resp.ok (r : Resp) : Bool :=
  200 ≤ r.status && r.status ≤ 299

/-- Names of the `HTTPError` class hierarchy of src/errors/http.ts. -/
inductive HTTPErrorKind where
  | generic
  | badRequest
  | authorization
  | forbidden
  | notFound
  | timeout
  | internalServer
deriving DecidableEq, Repr

/-- An instance of `HTTPError` (or of one of its subclasses, identified by
`kind`); carries the triggering response and request. -/
structure HTTPErr where
  kind : HTTPErrorKind
  response : Resp
  request : ReqP
deriving DecidableEq, Repr

/-- Values thrown inside the HTTP pipeline: a typed HTTP error, the
`AbortError` raised when the timeout controller fires, a network failure, or
any other thrown value. -/
inductive HErr where
  | http (e : HTTPErr)
  | abort
  | network (msg : String)
  | js (msg : String)
deriving DecidableEq, Repr

/-- Translation of the static `HttpClient.mapResponseToHTTPError` switch on
`StatusCode`. -/
def HttpClient.mapResponseToHTTPError (response : Resp) (request : ReqP) : HTTPErr :=
  if response.status = 400 then ⟨.badRequest, response, request⟩
  else if response.status = 401 then ⟨.authorization, response, request⟩
  else if response.status = 403 then ⟨.forbidden, response, request⟩
  else if response.status = 404 then ⟨.notFound, response, request⟩
  else if response.status = 408 then ⟨.timeout, response, request⟩
  else if response.status = 500 then ⟨.internalServer, response, request⟩
  else ⟨.generic, response, request⟩

/-- Payload of the response interceptor chain (`{ request, response }`). -/
structure RespPayload where
  request : ReqP
  response : Resp
deriving DecidableEq, Repr

/-- Translation of the interceptor returned by
`HttpInterceptors.transformErrors`: ok responses pass through unchanged,
non-ok responses raise the mapped `HTTPError`. -/
def transformErrorsRun (p : RespPayload) : Except HErr RespPayload :=
  if p.response.ok then .ok p
  else .error (.http (HttpClient.mapResponseToHTTPError p.response p.request))

/-! ## Claim C1: execution order of the interceptor chain -/

/-- C1: `HttpInterceptorManager.execute` folds the entries left to right.  On
the empty chain the initial value is returned.  On a chain `h :: hs`: an entry
without a `fulfilled` handler leaves the running value unchanged; a succeeding
`fulfilled` handler replaces the running value and the fold continues; a
raising `fulfilled` handler whose entry carries a `rejected` handler hands the
error to that handler, whose return value becomes the new running value for
the remaining entries; if the `rejected` handler itself raises, that error is
the result; and a raising `fulfilled` handler on an entry without a `rejected`
handler makes the error the result immediately, for every choice of remaining
entries `hs` (so no later entry runs). -/
theorem interceptor_execute_fold {T E : Type} (h : Handler T E)
    (hs : List (Handler T E)) (v : T) :
    (HttpInterceptorManager.execute (⟨[]⟩ : HttpInterceptorManager T E) v =
      .ok v) ∧
    (h.fulfilled = none →
      HttpInterceptorManager.execute ⟨h :: hs⟩ v =
        HttpInterceptorManager.execute ⟨hs⟩ v) ∧
    (∀ f w, h.fulfilled = some f → f v = .ok w →
      HttpInterceptorManager.execute ⟨h :: hs⟩ v =
        HttpInterceptorManager.execute ⟨hs⟩ w) ∧
    (∀ f e r w, h.fulfilled = some f → f v = .error e → h.rejected = some r →
      r e = .ok w →
      HttpInterceptorManager.execute ⟨h :: hs⟩ v =
        HttpInterceptorManager.execute ⟨hs⟩ w) ∧
    (∀ f e r e2, h.fulfilled = some f → f v = .error e → h.rejected = some r →
      r e = .error e2 →
      HttpInterceptorManager.execute ⟨h :: hs⟩ v = .error e2) ∧
    (∀ f e, h.fulfilled = some f → f v = .error e → h.rejected = none →
      HttpInterceptorManager.execute ⟨h :: hs⟩ v = .error e) := by
  refine ⟨rfl, ?_, ?_, ?_, ?_, ?_⟩
  · intro hf
    simp [HttpInterceptorManager.execute, executeHandlers, hf]
  · intro f w hf hw
    simp [HttpInterceptorManager.execute, executeHandlers, hf, hw]
  · intro f e r w hf he hr hw
    simp [HttpInterceptorManager.execute, executeHandlers, hf, he, hr, hw]
  · intro f e r e2 hf he hr he2
    simp [HttpInterceptorManager.execute, executeHandlers, hf, he, hr, he2]
  · intro f e hf he hr
    simp [HttpInterceptorManager.execute, executeHandlers, hf, he, hr]

/-- Witness for C1: evaluates the fold on concrete chains, exercising the
propagation case, the recovery case and the success case. -/
theorem interceptor_execute_fold_witness :
    (HttpInterceptorManager.execute
      (⟨[⟨some fun _ => .error 7, none⟩]⟩ : HttpInterceptorManager Nat Nat)
      3 = .error 7) ∧
    (HttpInterceptorManager.execute
      (⟨[⟨some fun _ => .error 7, some fun e => .ok (e + 1)⟩]⟩ :
        HttpInterceptorManager Nat Nat) 3 = .ok 8) ∧
    (HttpInterceptorManager.execute
      (⟨[⟨some fun n => .ok (n * 2), none⟩]⟩ : HttpInterceptorManager Nat Nat)
      3 = .ok 6) := by
  refine ⟨?_, ?_, ?_⟩
  · exact (interceptor_execute_fold ⟨some fun _ => .error 7, none⟩ [] 3).2.2.2.2.2
      (fun _ => .error 7) 7 rfl rfl rfl
  · exact (interceptor_execute_fold
      ⟨some fun _ => .error 7, some fun e => .ok (e + 1)⟩ [] 3).2.2.2.1
      (fun _ => .error 7) 7 (fun e => .ok (e + 1)) 8 rfl rfl rfl rfl
  · exact (interceptor_execute_fold ⟨some fun n => .ok (n * 2), none⟩ [] 3).2.2.1
      (fun n => .ok (n * 2)) 6 rfl rfl

/-! ## Claim C7: totality of the status-code-to-error mapping -/

/-- C7: `HttpClient.mapResponseToHTTPError` sends each status in
400/401/403/404/408/500 to the correspondingly named error class, sends any
other non-2xx status to the generic `HTTPError`, and on an ok (2xx) response
the mapping is never invoked because `HttpInterceptors.transformErrors`
returns the payload unchanged. -/
theorem status_error_mapping_total (resp : Resp) (req : ReqP) :
    (resp.status = 400 →
      (HttpClient.mapResponseToHTTPError resp req).kind = .badRequest) ∧
    (resp.status = 401 →
      (HttpClient.mapResponseToHTTPError resp req).kind = .authorization) ∧
    (resp.status = 403 →
      (HttpClient.mapResponseToHTTPError resp req).kind = .forbidden) ∧
    (resp.status = 404 →
      (HttpClient.mapResponseToHTTPError resp req).kind = .notFound) ∧
    (resp.status = 408 →
      (HttpClient.mapResponseToHTTPError resp req).kind = .timeout) ∧
    (resp.status = 500 →
      (HttpClient.mapResponseToHTTPError resp req).kind = .internalServer) ∧
    (resp.status ∉ ([400, 401, 403, 404, 408, 500] : List Nat) →
      (HttpClient.mapResponseToHTTPError resp req).kind = .generic) ∧
    (resp.ok = true → transformErrorsRun ⟨req, resp⟩ = .ok ⟨req, resp⟩) := by
  refine ⟨?_, ?_, ?_, ?_, ?_, ?_, ?_, ?_⟩
  all_goals intro h
  · simp [HttpClient.mapResponseToHTTPError, h]
  · simp [HttpClient.mapResponseToHTTPError, h]
  · simp [HttpClient.mapResponseToHTTPError, h]
  · simp [HttpClient.mapResponseToHTTPError, h]
  · simp [HttpClient.mapResponseToHTTPError, h]
  · simp [HttpClient.mapResponseToHTTPError, h]
  · simp only [List.mem_cons, List.not_mem_nil, or_false, not_or] at h
    obtain ⟨h1, h2, h3, h4, h5, h6⟩ := h
    simp [HttpClient.mapResponseToHTTPError, h1, h2, h3, h4, h5, h6]
  · simp [transformErrorsRun, h]

/-- Witness for C7: evaluates the mapping at 401, at the unlisted failure
status 418, and the pass-through at an ok 200 response. -/
theorem status_error_mapping_total_witness :
    ((HttpClient.mapResponseToHTTPError ⟨401⟩ ⟨"u", [], none⟩).kind =
      .authorization) ∧
    ((HttpClient.mapResponseToHTTPError ⟨418⟩ ⟨"u", [], none⟩).kind =
      .generic) ∧
    (transformErrorsRun ⟨⟨"u", [], none⟩, ⟨200⟩⟩ =
      .ok ⟨⟨"u", [], none⟩, ⟨200⟩⟩) := by
  refine ⟨?_, ?_, ?_⟩
  · exact (status_error_mapping_total ⟨401⟩ ⟨"u", [], none⟩).2.1 rfl
  · exact (status_error_mapping_total ⟨418⟩ ⟨"u", [], none⟩).2.2.2.2.2.2.1
      (by decide)
  · exact (status_error_mapping_total ⟨200⟩ ⟨"u", [], none⟩).2.2.2.2.2.2.2
      (by decide)

/-! ## Auth providers, factory and manager (src/auth) -/

/-- JavaScript values expected to be strings: either an actual string or a
value of some other runtime type. -/
inductive JsStr where
  | str (s : String)
  | nonString
deriving DecidableEq, Repr

/-- SDK-level errors: `StrapiSDKError` and `StrapiValidationError`. -/
inductive SdkErr where
  | sdk (msg : String)
  | validation (msg : String)
deriving DecidableEq, Repr

/-- An constructed auth provider instance, reduced to the observable surface
the manager uses: its strategy `name` and its current auth `headers`. -/
structure ProviderM where
  name : String
  headers : List (String × String)
deriving DecidableEq, Repr

/-- State of `AuthManager`: the currently selected provider and the
authentication flag; `_isAuthenticated` starts false and `_authProvider`
unset. -/
structure AuthM where
  provider : Option ProviderM := none
  isAuthenticated : Bool := false
deriving DecidableEq, Repr

/-- Translation of `AuthManager.handleUnauthorizedError`: unconditionally
resets the flag. -/
def AuthM.handleUnauthorizedError (m : AuthM) : AuthM :=
  { m with isAuthenticated := false }

/-- Translation of `AuthManager.authenticate`.  The outcome of the call
`this._authProvider.authenticate(http)` is passed in as `providerResult`.
The try/catch of the source swallows every provider error, so the translation
returns in the `Except` monad to record that the method itself never
throws. -/
def AuthM.authenticate {E : Type} (m : AuthM) (providerResult : Except E Unit) :
    Except E AuthM :=
  match m.provider with
  | none => .ok { m with isAuthenticated := false }
  | some _ =>
    match providerResult with
    | .ok _ => .ok { m with isAuthenticated := true }
    | .error _ => .ok { m with isAuthenticated := false }

/-- Translation of `AuthProviderFactory.create`: looks the strategy up in the
registry and either raises a `StrapiSDKError` naming the unsupported strategy
or runs the registered creator (whose construction-time
`preflightValidation` may itself raise). -/
def AuthProviderFactory.create {O : Type}
    (registry : List (String × (O → Except SdkErr ProviderM)))
    (authStrategy : String) (options : O) : Except SdkErr ProviderM :=
  match registry.find? (fun kv => kv.1 == authStrategy) with
  | none => .error (.sdk ("Auth strategy " ++ authStrategy ++ " is not supported."))
  | some kv => kv.2 options

/-- Translation of `AuthManager.setStrategy`: the factory call is evaluated
first and its result is then assigned to `_authProvider`, so a raising
`create` leaves the manager untouched. -/
def AuthM.setStrategy {O : Type} (m : AuthM)
    (registry : List (String × (O → Except SdkErr ProviderM)))
    (strategy : String) (options : O) : Except SdkErr AuthM :=
  (AuthProviderFactory.create registry strategy options).map fun p =>
    { m with provider := some p }

/-- Options of the users-permissions auth provider, as the runtime sees
them. -/
structure UsersPermissionsOptions where
  identifier : JsStr
  password : JsStr
deriving DecidableEq, Repr

/-- Model of the users-permissions creator registered by
`AuthManager.registerDefaultProviders`: the constructor runs
`preflightValidation`, which raises a `StrapiValidationError` unless both
`identifier` and `password` are strings. -/
def usersPermissionsCreator (options : UsersPermissionsOptions) :
    Except SdkErr ProviderM :=
  match options.identifier with
  | .nonString => .error (.validation "The identifier option must be a string")
  | .str _ =>
    match options.password with
    | .nonString => .error (.validation "The password option must be a string")
    | .str _ => .ok { name := "users-permissions", headers := [] }

/-! ## Claim C4: the manager swallows provider authentication errors -/

/-- C4: `AuthManager.authenticate` never raises.  Without a provider it
resets `isAuthenticated` and returns; with a provider it sets the flag to
true exactly when the provider call succeeded and swallows any provider
error, leaving the failure observable only through the flag staying
false. -/
theorem authManager_authenticate_never_raises {E : Type} (m : AuthM)
    (pr : Except E Unit) :
    (∃ m2, AuthM.authenticate m pr = .ok m2) ∧
    (m.provider = none →
      AuthM.authenticate m pr = .ok { m with isAuthenticated := false }) ∧
    (∀ p, m.provider = some p → pr = .ok () →
      AuthM.authenticate m pr = .ok { m with isAuthenticated := true }) ∧
    (∀ p e, m.provider = some p → pr = .error e →
      AuthM.authenticate m pr = .ok { m with isAuthenticated := false }) := by
  refine ⟨?_, ?_, ?_, ?_⟩
  · cases hp : m.provider with
    | none =>
      exact ⟨{ m with isAuthenticated := false }, by simp [AuthM.authenticate, hp]⟩
    | some p =>
      cases pr with
      | ok u =>
        exact ⟨{ m with isAuthenticated := true }, by simp [AuthM.authenticate, hp]⟩
      | error e =>
        exact ⟨{ m with isAuthenticated := false }, by simp [AuthM.authenticate, hp]⟩
  · intro hp
    simp [AuthM.authenticate, hp]
  · intro p hp ho
    simp [AuthM.authenticate, hp, ho]
  · intro p e hp he
    simp [AuthM.authenticate, hp, he]

/-- Witness for C4: a provider failure at a concrete manager state flips the
flag from true to false without an error escaping, and a missing provider
resets the flag. -/
theorem authManager_authenticate_never_raises_witness :
    (AuthM.authenticate (E := Unit)
      ⟨some ⟨"users-permissions", []⟩, true⟩ (.error ()) =
        .ok ⟨some ⟨"users-permissions", []⟩, false⟩) ∧
    (AuthM.authenticate (E := Unit) ⟨none, true⟩ (.ok ()) =
        .ok ⟨none, false⟩) := by
  refine ⟨?_, ?_⟩
  · exact (authManager_authenticate_never_raises
      ⟨some ⟨"users-permissions", []⟩, true⟩ (.error ())).2.2.2
      ⟨"users-permissions", []⟩ () rfl rfl
  · exact (authManager_authenticate_never_raises
      ⟨none, true⟩ (.ok ())).2.1 rfl

/-! ## Claim C10: setStrategy is atomic and leaves the flag alone -/

/-- C10: `AuthManager.setStrategy` assigns a new provider only when the
factory `create` succeeds; a raising `create` (unregistered strategy or a
construction-time validation failure) propagates without producing a new
manager state, and a successful switch changes only the provider, never
`isAuthenticated`. -/
theorem setStrategy_error_atomicity {O : Type} (m : AuthM)
    (registry : List (String × (O → Except SdkErr ProviderM)))
    (strategy : String) (options : O) :
    (∀ e, AuthProviderFactory.create registry strategy options = .error e →
      AuthM.setStrategy m registry strategy options = .error e) ∧
    (∀ p, AuthProviderFactory.create registry strategy options = .ok p →
      AuthM.setStrategy m registry strategy options =
        .ok { provider := some p, isAuthenticated := m.isAuthenticated }) ∧
    (registry.find? (fun kv => kv.1 == strategy) = none →
      AuthM.setStrategy m registry strategy options =
        .error (.sdk ("Auth strategy " ++ strategy ++ " is not supported."))) := by
  refine ⟨?_, ?_, ?_⟩
  · intro e he
    simp [AuthM.setStrategy, he, Except.map]
  · intro p hp
    simp [AuthM.setStrategy, hp, Except.map]
  · intro hf
    simp [AuthM.setStrategy, AuthProviderFactory.create, hf, Except.map]

/-- Witness for C10: with the users-permissions creator registered, a
non-string identifier makes `setStrategy` raise the validation error (no new
state), valid options switch the provider while preserving a true
`isAuthenticated`, and an unregistered name raises the SDK error naming
it. -/
theorem setStrategy_error_atomicity_witness :
    (AuthM.setStrategy ⟨some ⟨"api-token", [("Authorization", "Bearer t")]⟩, true⟩
      [("users-permissions", usersPermissionsCreator)] "users-permissions"
      ⟨.nonString, .str "p"⟩ =
        .error (.validation "The identifier option must be a string")) ∧
    (AuthM.setStrategy ⟨some ⟨"api-token", [("Authorization", "Bearer t")]⟩, true⟩
      [("users-permissions", usersPermissionsCreator)] "users-permissions"
      ⟨.str "u", .str "p"⟩ =
        .ok ⟨some ⟨"users-permissions", []⟩, true⟩) ∧
    (AuthM.setStrategy ⟨none, false⟩
      [("users-permissions", usersPermissionsCreator)] "nonexistent"
      ⟨.str "u", .str "p"⟩ =
        .error (.sdk "Auth strategy nonexistent is not supported.")) := by
  refine ⟨?_, ?_, ?_⟩
  · exact (setStrategy_error_atomicity
      ⟨some ⟨"api-token", [("Authorization", "Bearer t")]⟩, true⟩
      [("users-permissions", usersPermissionsCreator)] "users-permissions"
      ⟨.nonString, .str "p"⟩).1
      (.validation "The identifier option must be a string") rfl
  · exact (setStrategy_error_atomicity
      ⟨some ⟨"api-token", [("Authorization", "Bearer t")]⟩, true⟩
      [("users-permissions", usersPermissionsCreator)] "users-permissions"
      ⟨.str "u", .str "p"⟩).2.1 ⟨"users-permissions", []⟩ rfl
  · exact (setStrategy_error_atomicity ⟨none, false⟩
      [("users-permissions", usersPermissionsCreator)] "nonexistent"
      ⟨.str "u", .str "p"⟩).2.2 rfl

/-! ## The wired response pipeline (src/client.ts initHttp/initAuth)

The `Strapi` client registers, in this order, `HttpInterceptors.transformErrors`
(initHttp) and the fulfilled/rejected pair of
`AuthInterceptors.notifyOnUnauthorizedResponse` (initAuth) on the response
chain of its HTTP client.  The handlers close over the mutable `AuthManager`,
modelled by threading an `AuthM` value. -/

/-- Runtime `instanceof HTTPAuthorizationError` check used by the rejection
handler of `notifyOnUnauthorizedResponse`. -/
def isHTTPAuthorizationError : HErr → Bool
  | .http e => e.kind == .authorization
  | _ => false

/-- Fulfilled handler of `AuthInterceptors.notifyOnUnauthorizedResponse`:
notifies the auth manager on a non-ok 401 response and passes the payload
through. -/
def notifyFulfilledRun (m : AuthM) (p : RespPayload) : AuthM × RespPayload :=
  let isUnauthorized := !p.response.ok && p.response.status == 401
  (if isUnauthorized then m.handleUnauthorizedError else m, p)

/-- Rejection handler of `AuthInterceptors.notifyOnUnauthorizedResponse`:
notifies the auth manager when the thrown value is an
`HTTPAuthorizationError` and returns the payload unchanged. -/
def notifyRejectedRun (m : AuthM) (e : HErr) : AuthM × HErr :=
  (if isHTTPAuthorizationError e then m.handleUnauthorizedError else m, e)

/-- Execution of the wired response chain
`[transformErrors, notifyOnUnauthorizedResponse]` under
`HttpInterceptorManager.execute`: the first entry has no rejection handler,
so an error it raises propagates immediately and the second entry never
runs. -/
def strapiResponseExecute (m : AuthM) (p : RespPayload) :
    AuthM × Except HErr RespPayload :=
  match transformErrorsRun p with
  | .error e => (m, .error e)
  | .ok p1 =>
    let s := notifyFulfilledRun m p1
    (s.1, .ok s.2)

/-- Rejection pass of the wired response chain under
`HttpInterceptorManager.reject`: only the second entry carries a rejection
handler. -/
def strapiResponseReject (m : AuthM) (e : HErr) : AuthM × HErr :=
  notifyRejectedRun m e

/-- Response half of `HttpClient.request`: on a successful chain execution
the processed response is returned; on an error the error is pushed through
the rejection pass and the result re-raised. -/
def strapiResponsePhase (m : AuthM) (p : RespPayload) :
    AuthM × Except HErr Resp :=
  match strapiResponseExecute m p with
  | (m1, .ok pp) => (m1, .ok pp.response)
  | (m1, .error e) =>
    let s := strapiResponseReject m1 e
    (s.1, .error s.2)

/-! ## Claim C5: a 401 always resets the authentication flag -/

/-- C5: whenever a 401 response or an authorization error flows through the
wired response pipeline the unauthorized reset runs before the error reaches
the caller: the full pipeline on a 401 response leaves `isAuthenticated`
false (whatever it was) while surfacing the mapped authorization error; the
fulfilled notification handler on a non-ok 401 resets the flag; and the
rejection pass on an `HTTPAuthorizationError` resets the flag. -/
theorem unauthorized_response_resets_auth (m : AuthM) (req : ReqP)
    (resp : Resp) (e : HErr) :
    (resp.status = 401 →
      (strapiResponsePhase m ⟨req, resp⟩).1.isAuthenticated = false ∧
      (strapiResponsePhase m ⟨req, resp⟩).2 =
        .error (.http ⟨.authorization, resp, req⟩)) ∧
    (resp.status = 401 →
      (notifyFulfilledRun m ⟨req, resp⟩).1.isAuthenticated = false) ∧
    (isHTTPAuthorizationError e = true →
      (strapiResponseReject m e).1.isAuthenticated = false) := by
  refine ⟨?_, ?_, ?_⟩
  · intro h
    obtain ⟨s⟩ := resp
    subst h
    have hok : Resp.ok ⟨401⟩ = false := by decide
    constructor
    · simp [strapiResponsePhase, strapiResponseExecute, transformErrorsRun,
        hok, strapiResponseReject, notifyRejectedRun, isHTTPAuthorizationError,
        HttpClient.mapResponseToHTTPError, AuthM.handleUnauthorizedError]
    · simp [strapiResponsePhase, strapiResponseExecute, transformErrorsRun,
        hok, strapiResponseReject, notifyRejectedRun, isHTTPAuthorizationError,
        HttpClient.mapResponseToHTTPError, AuthM.handleUnauthorizedError]
  · intro h
    obtain ⟨s⟩ := resp
    subst h
    have hok : Resp.ok ⟨401⟩ = false := by decide
    simp [notifyFulfilledRun, hok, AuthM.handleUnauthorizedError]
  · intro h
    simp [strapiResponseReject, notifyRejectedRun, h,
      AuthM.handleUnauthorizedError]

/-- Witness for C5: a concrete 401 response flowing through the pipeline
with a previously authenticated manager leaves the flag false and surfaces
the authorization error, and the rejection pass resets the flag on a
concrete authorization error. -/
theorem unauthorized_response_resets_auth_witness :
    ((strapiResponsePhase ⟨some ⟨"api-token", []⟩, true⟩
      ⟨⟨"http://localhost:1337/articles", [], none⟩, ⟨401⟩⟩).1.isAuthenticated
        = false) ∧
    ((strapiResponsePhase ⟨some ⟨"api-token", []⟩, true⟩
      ⟨⟨"http://localhost:1337/articles", [], none⟩, ⟨401⟩⟩).2 =
        .error (.http ⟨.authorization, ⟨401⟩,
          ⟨"http://localhost:1337/articles", [], none⟩⟩)) ∧
    ((strapiResponseReject ⟨none, true⟩
      (.http ⟨.authorization, ⟨401⟩, ⟨"u", [], none⟩⟩)).1.isAuthenticated =
        false) := by
  refine ⟨?_, ?_, ?_⟩
  · exact ((unauthorized_response_resets_auth ⟨some ⟨"api-token", []⟩, true⟩
      ⟨"http://localhost:1337/articles", [], none⟩ ⟨401⟩ .abort).1 rfl).1
  · exact ((unauthorized_response_resets_auth ⟨some ⟨"api-token", []⟩, true⟩
      ⟨"http://localhost:1337/articles", [], none⟩ ⟨401⟩ .abort).1 rfl).2
  · exact (unauthorized_response_resets_auth ⟨none, true⟩ ⟨"u", [], none⟩
      ⟨401⟩ (.http ⟨.authorization, ⟨401⟩, ⟨"u", [], none⟩⟩)).2.2 rfl

/-! ## Path formatter (src/formatters/path.ts) -/

/-- Removal of the maximal run of trailing slash characters, the effect of
the replace of the trailing-slash pattern in
`PathFormatter.removeTrailingSlashes`. -/
def stripTrailingList : List Char → List Char
  | [] => []
  | c :: cs =>
    match stripTrailingList cs with
    | [] => if c = '/' then [] else [c]
    | d :: ds => c :: d :: ds

/-- Removal of the maximal run of leading slash characters, the effect of
the replace of the leading-slash pattern in
`PathFormatter.removeLeadingSlashes`. -/
def stripLeadingList (l : List Char) : List Char :=
  l.dropWhile (fun c => c == '/')

/-- The three slash-handling modes of `PathFormatter`: the single literal,
true (leave untouched) and false (strip); an absent field falls back to
false via the default parameters and `DEFAULT_CONFIG`. -/
inductive SlashConfig where
  | single
  | keep
  | strip
deriving DecidableEq, Repr

/-- Configuration record of `PathFormatter.format`; both fields default to
strip. -/
structure FormatterConfig where
  trailingSlashes : SlashConfig := .strip
  leadingSlashes : SlashConfig := .strip
deriving DecidableEq, Repr

/-- Translation of `PathFormatter.removeTrailingSlashes`. -/
def PathFormatter.removeTrailingSlashes (path : String) : String :=
  String.mk (stripTrailingList path.data)

/-- Translation of `PathFormatter.ensureSingleTrailingSlash`. -/
def PathFormatter.ensureSingleTrailingSlash (path : String) : String :=
  PathFormatter.removeTrailingSlashes path ++ "/"

/-- Translation of `PathFormatter.removeLeadingSlashes`. -/
def PathFormatter.removeLeadingSlashes (path : String) : String :=
  String.mk (stripLeadingList path.data)

/-- Translation of `PathFormatter.ensureSingleLeadingSlash`. -/
def PathFormatter.ensureSingleLeadingSlash (path : String) : String :=
  "/" ++ PathFormatter.removeLeadingSlashes path

/-- Translation of `PathFormatter.formatTrailingSlashes`. -/
def PathFormatter.formatTrailingSlashes (path : String) (config : SlashConfig) :
    String :=
  match config with
  | .single => PathFormatter.ensureSingleTrailingSlash path
  | .strip => PathFormatter.removeTrailingSlashes path
  | .keep => path

/-- Translation of `PathFormatter.formatLeadingSlashes`. -/
def PathFormatter.formatLeadingSlashes (path : String) (config : SlashConfig) :
    String :=
  match config with
  | .single => PathFormatter.ensureSingleLeadingSlash path
  | .strip => PathFormatter.removeLeadingSlashes path
  | .keep => path

/-- Translation of `PathFormatter.format`: trailing slashes are handled
first, then leading slashes. -/
def PathFormatter.format (path : String) (config : FormatterConfig) : String :=
  PathFormatter.formatLeadingSlashes
    (PathFormatter.formatTrailingSlashes path config.trailingSlashes)
    config.leadingSlashes

/-! ## The HTTP client request lifecycle (src/http/client.ts) -/

/-- Payload of the request interceptor chain (`{ request }`). -/
structure ReqPayload where
  request : ReqP
deriving DecidableEq, Repr

/-- The `RequestInit` fields relevant to the modelled lifecycle: caller
headers and an optional caller abort signal. -/
structure ReqInit where
  headers : List (String × String) := []
  signal : Option Sig := none
deriving DecidableEq, Repr

/-- State of an `HttpClient` instance: validated base URL, timeout, static
headers and the two interceptor managers.  The response manager enters the
`request` lifecycle only through its `execute` and `reject` methods, so it is
carried as those two functions; their defaults are the behaviour of a fresh
empty manager. -/
structure HttpClientM where
  baseURL : String
  timeout : Int
  headers : List (String × String) := []
  reqChain : HttpInterceptorManager ReqPayload HErr := ⟨[]⟩
  respExecute : RespPayload → Except HErr RespPayload := fun p => .ok p
  respReject : HErr → Except HErr HErr := fun e => .ok e

/-- The value observed by the caller of
`throw await this.interceptors.response.reject(error)`: the rejection pass
result if it returned, or the value it threw. -/
def thrownOf {E : Type} : Except E E → E
  | .ok e => e
  | .error e => e

/-- Path sanitation at the top of `HttpClient.request`:
`PathFormatter.format(path, { leadingSlashes: single })`. -/
def requestSafePath (path : String) : String :=
  PathFormatter.format path { leadingSlashes := .single }

/-- URL of the network call, fixed before any interceptor runs:
`new URL(baseURL + safePath)` (URL-object normalisation of the concatenated
string is not modelled). -/
def requestURL (c : HttpClientM) (path : String) : String :=
  c.baseURL ++ requestSafePath path

/-- The original request of `HttpClient.request`: built from the init
options, with every static client header appended after the caller
headers. -/
def requestOriginal (c : HttpClientM) (path : String) (init : ReqInit) :
    ReqPayload :=
  ⟨{ url := requestURL c path, headers := init.headers ++ c.headers,
     signal := init.signal }⟩

/-- Observable outcome of one `HttpClient.request` call: the value returned
or thrown, the durations of the timers scheduled via `setTimeout`, the
number of `clearTimeout` calls, and the `(input, request)` pair handed to
`this.fetch` when the network call was reached. -/
structure ReqOutcome where
  result : Except HErr Resp
  timersScheduled : List Int
  timersCleared : Nat
  fetched : Option (String × ReqP)

/-- Translation of `HttpClient.request`.  The network is abstracted by
`net`; a timeout firing is `net` returning the abort error.  Control flow of
the source: a request-interceptor error propagates before the timer is
created; otherwise exactly one timer is scheduled, the processed request is
re-wrapped with the controller signal (superseding any existing signal), and
the timer is cleared once on the success path and additionally in the catch
handler, through which every failure of the network call or of the response
chain is pushed into the response rejection pass and re-thrown. -/
def HttpClient.request (c : HttpClientM) (path : String) (init : ReqInit)
    (net : String → ReqP → Except HErr Resp) : ReqOutcome :=
  match c.reqChain.execute (requestOriginal c path init) with
  | .error e =>
    { result := .error e, timersScheduled := [], timersCleared := 0,
      fetched := none }
  | .ok payload =>
    let request : ReqP := { payload.request with signal := some Sig.timer }
    match net (requestURL c path) request with
    | .ok response =>
      match c.respExecute { request := request, response := response } with
      | .ok pp =>
        { result := .ok pp.response, timersScheduled := [c.timeout],
          timersCleared := 1, fetched := some (requestURL c path, request) }
      | .error e =>
        { result := .error (thrownOf (c.respReject e)),
          timersScheduled := [c.timeout], timersCleared := 2,
          fetched := some (requestURL c path, request) }
    | .error e =>
      { result := .error (thrownOf (c.respReject e)),
        timersScheduled := [c.timeout], timersCleared := 1,
        fetched := some (requestURL c path, request) }

/-! ## Claim C3: timer and signal discipline of request -/

/-- Request chain whose single entry always throws and has no recovery
handler. -/
def failingReqChain : HttpInterceptorManager ReqPayload HErr :=
  ⟨[⟨some fun _ => .error (.js "boom"), none⟩]⟩

/-- Client used to refute the unconditional form of the timer claim. -/
def cxTimerClient : HttpClientM :=
  { baseURL := "http://localhost:1337", timeout := 5000,
    reqChain := failingReqChain }

/-- Counterexample to C3 as stated: for a call whose request interceptor
throws, no timer at all is scheduled, contradicting that every call to
`HttpClient.request` schedules exactly one timer set to the client
timeout. -/
theorem request_timer_not_always_scheduled :
    (HttpClient.request cxTimerClient "/articles" ⟨[], none⟩
      (fun _ _ => .ok ⟨200⟩)).timersScheduled ≠ [cxTimerClient.timeout] := by
  intro hcon
  have hempty : (HttpClient.request cxTimerClient "/articles" ⟨[], none⟩
      (fun _ _ => .ok ⟨200⟩)).timersScheduled = [] := rfl
  rw [hempty] at hcon
  exact List.noConfusion hcon

/-- C3 (amended): for every `HttpClient.request` call whose
request-interceptor chain completes successfully, exactly one timer set to
the client timeout is scheduled; the signal of the controller tied to that
timer is attached to the outgoing request, superseding any signal supplied
by the caller or by a request interceptor; the timer is cleared on the
success path and on the failure path; and a failing network call — in
particular the cancellation error of a timeout-triggered abort — makes the
call fail with that error pushed through the response rejection pass. -/
theorem request_timer_discipline (c : HttpClientM) (path : String)
    (init : ReqInit) (net : String → ReqP → Except HErr Resp) (p : ReqPayload)
    (h : c.reqChain.execute (requestOriginal c path init) = .ok p) :
    (HttpClient.request c path init net).timersScheduled = [c.timeout] ∧
    (∀ u r, (HttpClient.request c path init net).fetched = some (u, r) →
      r.signal = some Sig.timer) ∧
    1 ≤ (HttpClient.request c path init net).timersCleared ∧
    (∀ e, net (requestURL c path) { p.request with signal := some Sig.timer } =
        .error e →
      (HttpClient.request c path init net).result =
        .error (thrownOf (c.respReject e))) := by
  cases hn : net (requestURL c path) { p.request with signal := some Sig.timer } with
  | ok response =>
    cases hr : c.respExecute
        { request := { p.request with signal := some Sig.timer },
          response := response } with
    | ok pp =>
      refine ⟨?_, ?_, ?_, ?_⟩
      · simp [HttpClient.request, h, hn, hr]
      · intro u r hf
        simp [HttpClient.request, h, hn, hr] at hf
        simp [← hf.2]
      · simp [HttpClient.request, h, hn, hr]
      · intro e he
        exact Except.noConfusion he
    | error e0 =>
      refine ⟨?_, ?_, ?_, ?_⟩
      · simp [HttpClient.request, h, hn, hr]
      · intro u r hf
        simp [HttpClient.request, h, hn, hr] at hf
        simp [← hf.2]
      · simp [HttpClient.request, h, hn, hr]
      · intro e he
        exact Except.noConfusion he
  | error e0 =>
    refine ⟨?_, ?_, ?_, ?_⟩
    · simp [HttpClient.request, h, hn]
    · intro u r hf
      simp [HttpClient.request, h, hn] at hf
      simp [← hf.2]
    · simp [HttpClient.request, h, hn]
    · intro e he
      injection he with he2
      subst he2
      simp [HttpClient.request, h, hn]

/-- Request chain for the C3 witness: one interceptor that replaces both the
headers and the abort signal of the request. -/
def egTimerChain : HttpInterceptorManager ReqPayload HErr :=
  ⟨[⟨some fun p =>
      .ok ⟨{ p.request with signal := some (Sig.caller 9) }⟩, none⟩]⟩

/-- Client for the C3 witness. -/
def egTimerClient : HttpClientM :=
  { baseURL := "http://localhost:1337", timeout := 250,
    reqChain := egTimerChain }

/-- Network stub whose call always fails with the cancellation error, the
observable outcome of the timeout firing. -/
def egAbortNet : String → ReqP → Except HErr Resp :=
  fun _ _ => .error .abort

/-- Witness for C3 (amended): a concrete call through an
interceptor-replaced signal and an aborting network evaluates to one
scheduled 250 ms timer, a timer signal on the outgoing request, a cleared
timer, and the abort error pushed through the rejection pass. -/
theorem request_timer_discipline_witness :
    (HttpClient.request egTimerClient "/articles" ⟨[], some (Sig.caller 1)⟩
      egAbortNet).timersScheduled = [egTimerClient.timeout] ∧
    (∀ u r, (HttpClient.request egTimerClient "/articles"
      ⟨[], some (Sig.caller 1)⟩ egAbortNet).fetched = some (u, r) →
        r.signal = some Sig.timer) ∧
    1 ≤ (HttpClient.request egTimerClient "/articles"
      ⟨[], some (Sig.caller 1)⟩ egAbortNet).timersCleared ∧
    (HttpClient.request egTimerClient "/articles" ⟨[], some (Sig.caller 1)⟩
      egAbortNet).result = .error (thrownOf (egTimerClient.respReject .abort)) := by
  have h := request_timer_discipline egTimerClient "/articles"
    ⟨[], some (Sig.caller 1)⟩ egAbortNet
    ⟨{ url := "http://localhost:1337/articles", headers := [],
       signal := some (Sig.caller 9) }⟩ rfl
  exact ⟨h.1, h.2.1, h.2.2.1, h.2.2.2 .abort rfl⟩

/-! ## Claim C9: the network URL is fixed before interceptors run -/

/-- C9: whenever a `HttpClient.request` call reaches the network, the URL it
fetches is the stored base URL concatenated with the slash-normalised path,
independently of what the request interceptors did to the request
envelope. -/
theorem request_url_fixed_before_interceptors (c : HttpClientM) (path : String)
    (init : ReqInit) (net : String → ReqP → Except HErr Resp) (u : String)
    (r : ReqP) (h : (HttpClient.request c path init net).fetched = some (u, r)) :
    u = c.baseURL ++ PathFormatter.format path { leadingSlashes := .single } := by
  cases he : c.reqChain.execute (requestOriginal c path init) with
  | error e =>
    simp [HttpClient.request, he] at h
  | ok payload =>
    cases hn : net (requestURL c path)
        { payload.request with signal := some Sig.timer } with
    | ok response =>
      cases hr : c.respExecute
          { request := { payload.request with signal := some Sig.timer },
            response := response } with
      | ok pp =>
        simp [HttpClient.request, he, hn, hr] at h
        exact h.1.symm
      | error e =>
        simp [HttpClient.request, he, hn, hr] at h
        exact h.1.symm
    | error e =>
      simp [HttpClient.request, he, hn] at h
      exact h.1.symm

/-- Request chain for the C9 witness: an interceptor that replaces the whole
request with one targeting a different URL. -/
def egHijackChain : HttpInterceptorManager ReqPayload HErr :=
  ⟨[⟨some fun _ =>
      .ok ⟨{ url := "http://evil.example/steal", headers := [],
             signal := none }⟩, none⟩]⟩

/-- Client for the C9 witness. -/
def egHijackClient : HttpClientM :=
  { baseURL := "http://localhost:1337", timeout := 1000,
    reqChain := egHijackChain }

/-- Witness for C9: even though the only interceptor replaces the request
with one aimed at a different host, the fetched URL is still the base URL
plus the normalised path. -/
theorem request_url_fixed_before_interceptors_witness :
    "http://localhost:1337/articles" =
      egHijackClient.baseURL ++
        PathFormatter.format "/articles" { leadingSlashes := .single } := by
  refine request_url_fixed_before_interceptors egHijackClient "/articles"
    ⟨[], none⟩ (fun _ _ => .ok ⟨200⟩) "http://localhost:1337/articles"
    { url := "http://evil.example/steal", headers := [],
      signal := some Sig.timer } ?_
  rfl

/-! ## Claim C6: fork isolation of interceptor chains

The pure chain model above cannot express the aliasing behaviour of
`HttpClient.create`, so here the `_handlers` array of every
`HttpInterceptorManager` lives in an explicit store of handler lists
addressed by references.  `use` pushes onto the referenced list in place;
`clone` allocates a fresh cell holding a copy of the list, sharing the
handler values (the closures) themselves.  Handlers are an arbitrary type
`H`. -/

/-- Store of interceptor-manager handler lists; a manager is a reference
(index) into the store. -/
structure ChainStore (H : Type) where
  cells : List (List H)
deriving Repr

/-- Dereference a manager: its current ordered handler list. -/
def ChainStore.read {H : Type} (s : ChainStore H) (r : Nat) : List H :=
  s.cells.getD r []

/-- Translation of `HttpInterceptorManager.use` in the store model: push one
entry onto the referenced handler list. -/
def ChainStore.useAt {H : Type} (s : ChainStore H) (r : Nat) (h : H) :
    ChainStore H :=
  ⟨s.cells.set r (s.read r ++ [h])⟩

/-- Allocate a fresh manager holding the given handler list. -/
def ChainStore.alloc {H : Type} (s : ChainStore H) (hs : List H) :
    ChainStore H × Nat :=
  (⟨s.cells ++ [hs]⟩, s.cells.length)

/-- Translation of `HttpInterceptorManager.clone`: a new manager whose
handler list is a copy of the current one (`[...this._handlers]`). -/
def ChainStore.cloneAt {H : Type} (s : ChainStore H) (r : Nat) :
    ChainStore H × Nat :=
  s.alloc (s.read r)

/-- The two interceptor managers owned by one `HttpClient`. -/
structure ClientRefs where
  request : Nat
  response : Nat
deriving DecidableEq, Repr

/-- Translation of `HttpClient.create` with `inheritInterceptors = true`: the
constructor of the fork first allocates two fresh empty managers, which
`create` then replaces by clones of the parent chains. -/
def HttpClient.create {H : Type} (s : ChainStore H) (c : ClientRefs) :
    ChainStore H × ClientRefs :=
  let a1 := s.alloc []
  let a2 := a1.1.alloc []
  let a3 := a2.1.cloneAt c.request
  let a4 := a3.1.cloneAt c.response
  (a4.1, ⟨a3.2, a4.2⟩)

/-- Reading below the old length is unaffected by appending cells. -/
theorem ChainStore.read_append_lt {H : Type} (l l2 : List (List H)) (n : Nat)
    (h : n < l.length) :
    (ChainStore.mk (l ++ l2)).read n = (ChainStore.mk l).read n := by
  simp only [ChainStore.read, List.getD_eq_getElem?_getD]
  rw [List.getElem?_append]
  simp [h]

/-- Reading an appended cell selects from the appended block. -/
theorem ChainStore.read_append_right {H : Type} (l l2 : List (List H))
    (k : Nat) :
    (ChainStore.mk (l ++ l2)).read (l.length + k) = (ChainStore.mk l2).read k := by
  simp only [ChainStore.read, List.getD_eq_getElem?_getD]
  rw [List.getElem?_append]
  simp

/-- Mutating one cell leaves every other cell unchanged. -/
theorem ChainStore.read_useAt_ne {H : Type} (s : ChainStore H) (r r2 : Nat)
    (h : H) (hne : r ≠ r2) :
    (s.useAt r h).read r2 = s.read r2 := by
  simp only [ChainStore.useAt, ChainStore.read, List.getD_eq_getElem?_getD]
  rw [List.getElem?_set_ne hne]

/-- Evaluation of `HttpClient.create` in the store model: two garbage empty
cells from the fork constructor, then the two clones; the fork references the
clones. -/
theorem HttpClient.create_spec {H : Type} (s : ChainStore H) (a : ClientRefs)
    (hreq : a.request < s.cells.length) (hresp : a.response < s.cells.length) :
    HttpClient.create s a =
      (⟨s.cells ++ [[], [], s.read a.request, s.read a.response]⟩,
       ⟨s.cells.length + 2, s.cells.length + 3⟩) := by
  have h1 : (ChainStore.mk (s.cells ++ [[], []])).read a.request =
      s.read a.request :=
    ChainStore.read_append_lt s.cells [[], []] a.request hreq
  have h2 : (ChainStore.mk (s.cells ++ [[], [], s.read a.request])).read
      a.response = s.read a.response :=
    ChainStore.read_append_lt s.cells [[], [], s.read a.request] a.response hresp
  simp only [HttpClient.create, ChainStore.cloneAt, ChainStore.alloc]
  simp only [List.append_assoc, List.cons_append, List.nil_append] at h1 h2 ⊢
  rw [h1, h2]
  simp [List.length_append]

/-- C6: after `B = A.create()` with interceptor inheritance, the chains of
`B` hold the same ordered entries as those of `A` (the lists are copied, the
handler closures shared); appending an interceptor `i2` to the request chain
of `B` leaves both chains of `A` exactly as before the fork; and appending to
the request chain of `A` leaves the request chain of `B` unchanged. -/
theorem fork_interceptor_isolation {H : Type} (s : ChainStore H)
    (a : ClientRefs) (i2 : H) (hreq : a.request < s.cells.length)
    (hresp : a.response < s.cells.length) :
    ((HttpClient.create s a).1.read (HttpClient.create s a).2.request =
        s.read a.request) ∧
    ((HttpClient.create s a).1.read (HttpClient.create s a).2.response =
        s.read a.response) ∧
    (((HttpClient.create s a).1.useAt (HttpClient.create s a).2.request i2).read
        a.request = s.read a.request) ∧
    (((HttpClient.create s a).1.useAt (HttpClient.create s a).2.request i2).read
        a.response = s.read a.response) ∧
    (((HttpClient.create s a).1.useAt a.request i2).read
        (HttpClient.create s a).2.request =
      (HttpClient.create s a).1.read (HttpClient.create s a).2.request) := by
  rw [HttpClient.create_spec s a hreq hresp]
  dsimp only
  refine ⟨?_, ?_, ?_, ?_, ?_⟩
  · have := ChainStore.read_append_right s.cells
      [[], [], s.read a.request, s.read a.response] 2
    simpa using this
  · have := ChainStore.read_append_right s.cells
      [[], [], s.read a.request, s.read a.response] 3
    simpa using this
  · rw [ChainStore.read_useAt_ne _ _ _ _ (by omega)]
    exact ChainStore.read_append_lt s.cells _ a.request hreq
  · rw [ChainStore.read_useAt_ne _ _ _ _ (by omega)]
    exact ChainStore.read_append_lt s.cells _ a.response hresp
  · exact ChainStore.read_useAt_ne _ _ _ _ (by omega)

/-- Witness for C6: a concrete store with one parent client whose request
chain is `[1]` and response chain is `[3]` (handlers named by numbers); after
a fork, adding handler `2` to the fork request chain leaves the parent chain
at `[1]`. -/
theorem fork_interceptor_isolation_witness :
    (((HttpClient.create (⟨[[1], [3]]⟩ : ChainStore Nat) ⟨0, 1⟩).1.useAt
      (HttpClient.create (⟨[[1], [3]]⟩ : ChainStore Nat) ⟨0, 1⟩).2.request
      2).read 0 = [1]) ∧
    ((HttpClient.create (⟨[[1], [3]]⟩ : ChainStore Nat) ⟨0, 1⟩).1.read
      (HttpClient.create (⟨[[1], [3]]⟩ : ChainStore Nat) ⟨0, 1⟩).2.request =
        [1]) := by
  have h := fork_interceptor_isolation (⟨[[1], [3]]⟩ : ChainStore Nat)
    ⟨0, 1⟩ 2 (by decide) (by decide)
  exact ⟨h.2.2.1, h.1⟩

/-! ## URL validation (src/validators/url.ts)

The source delegates parsing to the WHATWG URL platform component
(`URL.canParse`, `url.protocol`), an external collaborator.  It is modelled
for the special (http-like) schemes relevant to the validator allow-list: a
string parses when it starts with a valid nonempty scheme followed by a
colon, two slashes and a nonempty host (first host character not a slash);
the protocol is the scheme with the trailing colon. -/

/-- Characters allowed in a URL scheme after the leading letter. -/
def isSchemeChar (c : Char) : Bool :=
  c.isAlpha || c.isDigit || c == '+' || c == '-' || c == '.'

/-- A scheme is nonempty, starts with a letter and uses scheme characters
throughout. -/
def validScheme : List Char → Bool
  | [] => false
  | c :: cs => c.isAlpha && (c :: cs).all isSchemeChar

/-- Parsing check on the character list of a candidate URL: valid scheme,
then a colon and two slashes, then a nonempty host whose first character is
not a slash. -/
def canParseList (l : List Char) : Bool :=
  let sch := l.takeWhile (fun c => c != ':')
  let rest := l.dropWhile (fun c => c != ':')
  validScheme sch && decide (rest.take 3 = [':', '/', '/']) &&
    (match rest.drop 3 with
     | [] => false
     | hd :: _ => hd != '/')

/-- The protocol of a parsed URL: scheme plus colon. -/
def protocolList (l : List Char) : List Char :=
  l.takeWhile (fun c => c != ':') ++ [':']

/-- Model of the platform `URL.canParse`. -/
def URL.canParse (s : String) : Bool :=
  canParseList s.data

/-- Model of the platform `url.protocol` accessor. -/
def URL.protocol (s : String) : String :=
  String.mk (protocolList s.data)

/-- The URL validation errors: `URLParsingError` and
`URLProtocolValidationError` (carrying the offending protocol). -/
inductive UrlErr where
  | parsing
  | protocol (found : String)
deriving DecidableEq, Repr

/-- `URLValidator` state: the configured protocol allow-list. -/
structure URLValidatorM where
  allowedProtocols : List String
deriving DecidableEq, Repr

/-- The default validator configuration (`DEFAULT_CONFIG`). -/
def defaultURLValidator : URLValidatorM :=
  ⟨["http:", "https:"]⟩

/-- Translation of `URLValidator.validate`: `preValidation` raises
`URLParsingError` on a non-string or unparseable input, then
`validateProtocol` raises `URLProtocolValidationError` when the parsed
protocol is outside the allow-list. -/
def URLValidatorM.validate (v : URLValidatorM) (url : JsStr) : Except UrlErr Unit :=
  match url with
  | .nonString => .error .parsing
  | .str s =>
    if URL.canParse s then
      if v.allowedProtocols.contains (URL.protocol s) then .ok ()
      else .error (.protocol (URL.protocol s))
    else .error .parsing

/-- Configuration-time errors of the HTTP client: a `TypeError` from the
runtime or a URL validation error. -/
inductive CfgErr where
  | typeErr
  | url (e : UrlErr)
deriving DecidableEq, Repr

/-- The default timeout (`DEFAULT_HTTP_TIMEOUT_MS`). -/
def DEFAULT_HTTP_TIMEOUT_MS : Int := 10000

/-- Translation of the `HttpClient` constructor: the base URL is
slash-normalised by `PathFormatter.format(config.baseURL,
\x7b trailingSlashes: false \x7d)` (which raises a `TypeError` on a
non-string input) and the normalised value is then validated; construction
succeeds only if validation does. -/
def HttpClient.init (v : URLValidatorM) (baseURL : JsStr) (timeout : Option Int)
    (headers : List (String × String)) : Except CfgErr HttpClientM :=
  match baseURL with
  | .nonString => .error .typeErr
  | .str s =>
    let b := PathFormatter.format s { trailingSlashes := .strip }
    match v.validate (.str b) with
    | .error e => .error (.url e)
    | .ok _ =>
      .ok { baseURL := b, timeout := timeout.getD DEFAULT_HTTP_TIMEOUT_MS,
            headers := headers }

/-- Translation of `HttpClient.setBaseURL`: the raw input is validated
first, and only then is the slash-normalised value stored. -/
def HttpClient.setBaseURL (v : URLValidatorM) (c : HttpClientM) (url : JsStr) :
    Except CfgErr HttpClientM :=
  match url with
  | .nonString => .error (.url .parsing)
  | .str s =>
    match v.validate (.str s) with
    | .error e => .error (.url e)
    | .ok _ =>
      .ok { c with baseURL := PathFormatter.format s { trailingSlashes := .strip } }

/-- The runtime `Number.isSafeInteger` check on an integer value. -/
def isSafeInteger (n : Int) : Bool :=
  n.natAbs ≤ 2 ^ 53 - 1

/-- Translation of `HttpClient.setTimeout`: raises a `TypeError` unless the
value is a safe integer. -/
def HttpClient.setTimeout (c : HttpClientM) (timeout : Int) :
    Except CfgErr HttpClientM :=
  if isSafeInteger timeout then .ok { c with timeout := timeout }
  else .error .typeErr

/-- A string carries no trailing slash. -/
def noTrailingSlash (s : String) : Bool :=
  s.data.getLast? != some '/'

/-- The C8 invariant on the stored base URL: it parses, uses an allowed
protocol and has no trailing slash. -/
def BaseURLInvariant (v : URLValidatorM) (s : String) : Prop :=
  URL.canParse s = true ∧
  v.allowedProtocols.contains (URL.protocol s) = true ∧
  noTrailingSlash s = true

/-! Auxiliary lemmas about slash stripping and the URL parsing model. -/

/-- Stripping trailing slashes never leaves a trailing slash. -/
theorem stripTrailingList_getLast (l : List Char) :
    (stripTrailingList l).getLast? ≠ some '/' := by
  induction l with
  | nil => simp [stripTrailingList]
  | cons c cs ih =>
    simp only [stripTrailingList]
    cases h : stripTrailingList cs with
    | nil =>
      by_cases hc : c = '/'
      · simp [hc]
      · simp [hc]
    | cons d ds =>
      rw [h] at ih
      simpa [List.getLast?_cons_cons] using ih

/-- Stripping trailing slashes from a nonempty-stripped suffix strips inside
the suffix only. -/
theorem stripTrailingList_append (a b : List Char)
    (hb : stripTrailingList b ≠ []) :
    stripTrailingList (a ++ b) = a ++ stripTrailingList b := by
  induction a with
  | nil => simp
  | cons x xs ih =>
    have hne : xs ++ stripTrailingList b ≠ [] := by
      intro hx
      rcases List.append_eq_nil.mp hx with ⟨-, h2⟩
      exact hb h2
    simp only [List.cons_append, stripTrailingList, List.append_eq]
    rw [ih]
    cases hx : xs ++ stripTrailingList b with
    | nil => exact absurd hx hne
    | cons d ds => simp

/-- Stripping trailing slashes walks through a non-slash head. -/
theorem stripTrailingList_cons_ne (c : Char) (r : List Char) (hc : c ≠ '/') :
    stripTrailingList (c :: r) = c :: stripTrailingList r := by
  simp only [stripTrailingList]
  cases h : stripTrailingList r with
  | nil => simp [hc]
  | cons d ds => rfl

/-- The head of a nonempty `dropWhile` residue falsifies the predicate. -/
theorem dropWhile_head_false {p : Char → Bool} :
    ∀ (l : List Char) (x : Char) (xs : List Char),
      l.dropWhile p = x :: xs → p x = false := by
  intro l
  induction l with
  | nil =>
    intro x xs hx
    simp [List.dropWhile] at hx
  | cons c cs ih =>
    intro x xs hx
    rw [List.dropWhile_cons] at hx
    by_cases hc : p c
    · rw [if_pos hc] at hx
      exact ih x xs hx
    · rw [if_neg hc] at hx
      cases hx
      simpa using hc

/-- A block of predicate-satisfying characters followed by a failing one is
exactly the takeWhile/dropWhile split point. -/
theorem takeWhile_dropWhile_append {p : Char → Bool} :
    ∀ (a : List Char) (y : Char) (t : List Char),
      (∀ x ∈ a, p x = true) → p y = false →
      (a ++ y :: t).takeWhile p = a ∧ (a ++ y :: t).dropWhile p = y :: t := by
  intro a
  induction a with
  | nil =>
    intro y t _ hy
    simp [List.takeWhile_cons, List.dropWhile_cons, hy]
  | cons c cs ih =>
    intro y t ha hy
    have hc : p c = true := ha c (by simp)
    have hcs : ∀ x ∈ cs, p x = true := fun x hx => ha x (by simp [hx])
    obtain ⟨h1, h2⟩ := ih y t hcs hy
    constructor
    · simp [List.takeWhile_cons, hc, h1]
    · simp [List.dropWhile_cons, hc, h2]

/-- Structure extracted from a parseable URL: a valid scheme, the colon, two
slashes and a non-slash host head. -/
theorem canParseList_decomp (l : List Char) (h : canParseList l = true) :
    ∃ sch hd t,
      l = sch ++ ':' :: '/' :: '/' :: hd :: t ∧
      l.takeWhile (fun c => c != ':') = sch ∧
      validScheme sch = true ∧ hd ≠ '/' := by
  unfold canParseList at h
  simp only [Bool.and_eq_true, decide_eq_true_eq] at h
  obtain ⟨⟨hsch, htake⟩, hdrop⟩ := h
  cases hd3 : (l.dropWhile (fun c => c != ':')).drop 3 with
  | nil => rw [hd3] at hdrop; simp at hdrop
  | cons hd t =>
    rw [hd3] at hdrop
    have hne : hd ≠ '/' := by simpa using hdrop
    refine ⟨l.takeWhile (fun c => c != ':'), hd, t, ?_, rfl, hsch, hne⟩
    have hsplit := List.takeWhile_append_dropWhile (p := fun c => c != ':') (l := l)
    have hrest : l.dropWhile (fun c => c != ':') = ':' :: '/' :: '/' :: hd :: t := by
      have := List.take_append_drop 3 (l.dropWhile (fun c => c != ':'))
      rw [htake, hd3] at this
      exact this.symm
    rw [hrest] at hsplit
    exact hsplit.symm

/-- Every character of a valid scheme satisfies the colon-avoiding
predicate. -/
theorem validScheme_no_colon (sch : List Char) (h : validScheme sch = true) :
    ∀ x ∈ sch, (x != ':') = true := by
  intro x hx
  have hall : sch.all isSchemeChar = true := by
    cases sch with
    | nil => simp at hx
    | cons c cs =>
      unfold validScheme at h
      simp only [Bool.and_eq_true] at h
      exact h.2
  have hxs : isSchemeChar x = true := by
    rw [List.all_eq_true] at hall
    exact hall x hx
  by_contra hcon
  simp only [Bool.not_eq_true, bne_eq_false_iff_eq] at hcon
  subst hcon
  have hfalse : isSchemeChar ':' = false := by decide
  rw [hfalse] at hxs
  exact Bool.noConfusion hxs

/-- Removing trailing slashes from a stripped list cannot create a trailing
slash, whatever prefix `dropWhile` removes. -/
theorem getLast_dropWhile_ne {p : Char → Bool} (l : List Char)
    (h : l.getLast? ≠ some '/') : (l.dropWhile p).getLast? ≠ some '/' := by
  induction l with
  | nil => simp [List.dropWhile]
  | cons c cs ih =>
    rw [List.dropWhile_cons]
    by_cases hc : p c
    · rw [if_pos hc]
      cases cs with
      | nil => simp [List.dropWhile]
      | cons d ds => exact ih (by rwa [List.getLast?_cons_cons] at h)
    · rw [if_neg hc]
      exact h

/-- Trailing-slash stripping preserves parseability and the protocol of a
parseable URL, and leading-slash stripping is the identity on the
result. -/
theorem canParse_stripTrailing (l : List Char) (h : canParseList l = true) :
    canParseList (stripTrailingList l) = true ∧
    protocolList (stripTrailingList l) = protocolList l ∧
    stripLeadingList (stripTrailingList l) = stripTrailingList l := by
  obtain ⟨sch, hd, t, hl, htake, hsch, hhd⟩ := canParseList_decomp l h
  have hb : stripTrailingList (hd :: t) = hd :: stripTrailingList t :=
    stripTrailingList_cons_ne hd t hhd
  have hbne : stripTrailingList (hd :: t) ≠ [] := by
    rw [hb]
    simp
  have hstrip : stripTrailingList l =
      sch ++ ':' :: '/' :: '/' :: hd :: stripTrailingList t := by
    rw [hl]
    calc stripTrailingList (sch ++ ':' :: '/' :: '/' :: hd :: t)
        = stripTrailingList ((sch ++ [':', '/', '/']) ++ hd :: t) := by simp
      _ = (sch ++ [':', '/', '/']) ++ stripTrailingList (hd :: t) :=
          stripTrailingList_append _ _ hbne
      _ = sch ++ ':' :: '/' :: '/' :: hd :: stripTrailingList t := by
          rw [hb]
          simp
  obtain ⟨htw, hdw⟩ := takeWhile_dropWhile_append (p := fun c => c != ':')
    sch ':' ('/' :: '/' :: hd :: stripTrailingList t)
    (validScheme_no_colon sch hsch) (by decide)
  refine ⟨?_, ?_, ?_⟩
  · unfold canParseList
    rw [hstrip]
    simp only [htw, hdw]
    simp [hsch, hhd]
  · unfold protocolList
    rw [hstrip, htw, htake]
  · rw [hstrip]
    cases sch with
    | nil => exact absurd hsch (by simp [validScheme])
    | cons c0 cs =>
      have hc0 : c0.isAlpha = true := by
        unfold validScheme at hsch
        simp only [Bool.and_eq_true] at hsch
        exact hsch.1
      have hne : (c0 == '/') = false := by
        apply beq_eq_false_iff_ne.mpr
        intro hcon
        subst hcon
        have : ('/' : Char).isAlpha = false := by decide
        rw [this] at hc0
        exact Bool.noConfusion hc0
      simp [stripLeadingList, List.dropWhile_cons, hne]

/-- Characterisation of a successful `URLValidator.validate` call. -/
theorem validate_ok_iff (v : URLValidatorM) (s : String) :
    v.validate (.str s) = .ok () ↔
      URL.canParse s = true ∧
        v.allowedProtocols.contains (URL.protocol s) = true := by
  unfold URLValidatorM.validate
  by_cases h1 : URL.canParse s
  · by_cases h2 : v.allowedProtocols.contains (URL.protocol s)
    · simp [h1, h2]
    · simp [h1, h2]
  · simp [h1]

/-- The stored base URL shape never ends in a slash. -/
theorem noTrailingSlash_format_strip (s : String) :
    noTrailingSlash (PathFormatter.format s { trailingSlashes := .strip }) = true := by
  unfold noTrailingSlash
  have hdata : (PathFormatter.format s { trailingSlashes := .strip }).data =
      stripLeadingList (stripTrailingList s.data) := rfl
  rw [hdata]
  have h := getLast_dropWhile_ne (p := fun c => c == '/')
    (stripTrailingList s.data) (stripTrailingList_getLast s.data)
  simpa [stripLeadingList, bne_iff_ne] using h

/-! ## Claim C8: the base URL invariant -/

/-- C8: the stored `baseURL` always parses, uses an allowed protocol and has
no trailing slash.  A successful constructor establishes the invariant; a
non-string constructor input raises synchronously; a successful `setBaseURL`
re-establishes the invariant and changes nothing but the `baseURL` field; a
failing validation makes `setBaseURL` raise without producing any new state;
and `setTimeout`, the only other mutator, leaves `baseURL` untouched. -/
theorem baseURL_invariant_maintained (v : URLValidatorM) (c : HttpClientM)
    (bu url : JsStr) (timeout : Option Int) (hd : List (String × String))
    (t : Int) :
    (∀ c0, HttpClient.init v bu timeout hd = .ok c0 →
      BaseURLInvariant v c0.baseURL) ∧
    (HttpClient.init v .nonString timeout hd = .error .typeErr) ∧
    (∀ c1, HttpClient.setBaseURL v c url = .ok c1 →
      BaseURLInvariant v c1.baseURL ∧
      c1 = { c with baseURL := c1.baseURL }) ∧
    (∀ e, v.validate url = .error e →
      HttpClient.setBaseURL v c url = .error (.url e)) ∧
    (∀ c2, HttpClient.setTimeout c t = .ok c2 → c2.baseURL = c.baseURL) := by
  refine ⟨?_, ?_, ?_, ?_, ?_⟩
  · intro c0 h0
    cases bu with
    | nonString => exact Except.noConfusion h0
    | str s =>
      simp only [HttpClient.init] at h0
      cases hv : v.validate (.str (PathFormatter.format s
          { trailingSlashes := .strip })) with
      | error e =>
        rw [hv] at h0
        exact Except.noConfusion h0
      | ok u =>
        rw [hv] at h0
        injection h0 with h0
        obtain ⟨hp, hc⟩ := (validate_ok_iff v _).mp (by cases u; exact hv)
        refine ⟨?_, ?_, ?_⟩
        · rw [← h0]
          exact hp
        · rw [← h0]
          exact hc
        · rw [← h0]
          exact noTrailingSlash_format_strip s
  · rfl
  · intro c1 h1
    cases url with
    | nonString => exact Except.noConfusion h1
    | str s =>
      simp only [HttpClient.setBaseURL] at h1
      cases hv : v.validate (.str s) with
      | error e =>
        rw [hv] at h1
        exact Except.noConfusion h1
      | ok u =>
        rw [hv] at h1
        injection h1 with h1
        obtain ⟨hp, hc⟩ := (validate_ok_iff v s).mp (by cases u; exact hv)
        obtain ⟨hparse, hproto, hlead⟩ := canParse_stripTrailing s.data hp
        have hdata : (PathFormatter.format s { trailingSlashes := .strip }).data =
            stripTrailingList s.data := by
          show stripLeadingList (stripTrailingList s.data) = stripTrailingList s.data
          exact hlead
        refine ⟨⟨?_, ?_, ?_⟩, ?_⟩
        · rw [← h1]
          show canParseList (PathFormatter.format s
            { trailingSlashes := .strip }).data = true
          rw [hdata]
          exact hparse
        · rw [← h1]
          have hpeq : URL.protocol (PathFormatter.format s
              { trailingSlashes := .strip }) = URL.protocol s := by
            show String.mk (protocolList (PathFormatter.format s
              { trailingSlashes := .strip }).data) = String.mk (protocolList s.data)
            rw [hdata, hproto]
          rw [hpeq]
          exact hc
        · rw [← h1]
          exact noTrailingSlash_format_strip s
        · rw [← h1]
  · intro e he
    cases url with
    | nonString =>
      cases he
      rfl
    | str s =>
      simp only [HttpClient.setBaseURL]
      rw [he]
  · intro c2 h2
    unfold HttpClient.setTimeout at h2
    by_cases ht : isSafeInteger t
    · rw [if_pos ht] at h2
      injection h2 with h2
      rw [← h2]
    · rw [if_neg ht] at h2
      exact Except.noConfusion h2

/-- Client produced by the witness constructor call. -/
def egInitClient : HttpClientM :=
  { baseURL := "https://api.example.com", timeout := 10000, headers := [] }

/-- Witness for C8: a concrete construction from a trailing-slash URL stores
the slash-free form and satisfies the invariant; re-pointing it at a
multi-slash localhost URL stores the normalised form with everything else
unchanged; an ftp URL makes `setBaseURL` raise the protocol error; and
`setTimeout` keeps the base URL. -/
theorem baseURL_invariant_maintained_witness :
    (BaseURLInvariant defaultURLValidator egInitClient.baseURL) ∧
    (HttpClient.setBaseURL defaultURLValidator egInitClient
      (.str "http://localhost:1337///") =
        .ok { egInitClient with baseURL := "http://localhost:1337" }) ∧
    (HttpClient.setBaseURL defaultURLValidator egInitClient
      (.str "ftp://files.example.com") = .error (.url (.protocol "ftp:"))) ∧
    (∀ c2, HttpClient.setTimeout egInitClient 250 = .ok c2 →
      c2.baseURL = egInitClient.baseURL) := by
  have h1 := (baseURL_invariant_maintained defaultURLValidator egInitClient
    (.str "https://api.example.com/") (.str "http://localhost:1337///")
    none [] 250).1 egInitClient rfl
  have h3 := (baseURL_invariant_maintained defaultURLValidator egInitClient
    (.str "https://api.example.com/") (.str "ftp://files.example.com")
    none [] 250).2.2.2.1 (.protocol "ftp:") rfl
  have h4 := (baseURL_invariant_maintained defaultURLValidator egInitClient
    (.str "https://api.example.com/") (.str "http://localhost:1337///")
    none [] 250).2.2.2.2
  exact ⟨h1, rfl, h3, h4⟩

/-! ## Claim C2: the credential handshake and the pre-auth interceptor

`UsersPermissionsAuthProvider.authenticate` posts the credentials to
`/auth/local` via `httpClient.post`, which funnels into `HttpClient.request`
and therefore runs the request interceptor chain of the client it was given.
`Strapi.initAuth` registers `ensurePreAuthentication(authManager,
this._httpClient)` on the main client and hands that same main client to the
interceptor, although the interceptor documents that the provided client must
not carry auth interceptors; `AuthManager.authenticate` forwards the client
unchanged to the provider.  The definitions below record the wiring and
evaluate the resulting flow. -/

/-- Tags of the request interceptors registered on the main Strapi HTTP
client, in registration order (`Strapi.initHttp`, then
`Strapi.initAuth`). -/
inductive ReqInterceptorTag where
  | setDefaultHeaders
  | ensurePreAuthentication
  | authenticateRequests
deriving DecidableEq, Repr

/-- The request chain of the main Strapi HTTP client. -/
def strapiRequestChainTags : List ReqInterceptorTag :=
  [.setDefaultHeaders, .ensurePreAuthentication, .authenticateRequests]

/-- Fuel-indexed evaluation of `AuthManager.authenticate` under the wired
users-permissions strategy, with the strategy configured and the network
reachable.  One step: the provider posts to `/auth/local` through
`httpClient.post` on the main client, so before any network traffic the
request chain runs; `setDefaultHeaders` only writes headers, and
`ensurePreAuthentication` sees a configured strategy and re-enters
`AuthManager.authenticate` whenever `isAuthenticated` is false.  Only if
that nested call returned would the chain proceed to the header injection,
the POST, and the token store.  `none` means the evaluation did not finish
within `fuel` nested authentication attempts. -/
def wiredUsersPermissionsAuthenticate : Nat → Bool → Option Bool
  | 0, _ => none
  | fuel + 1, isAuth =>
    let afterPreAuth : Option Bool :=
      if isAuth then some isAuth
      else wiredUsersPermissionsAuthenticate fuel isAuth
    match afterPreAuth with
    | none => none
    | some _ => some true

/-- C2: the handshake POST of the users-permissions provider runs on the
main client, whose request chain contains the pre-authentication
interceptor; consequently authenticating an unauthenticated manager
re-enters authentication and completes at no nesting depth, contradicting
the claim that the handshake uses a path on which no auth interceptors run
and never re-triggers pre-authentication. -/
theorem usersPermissions_handshake_reenters_preauth :
    (ReqInterceptorTag.ensurePreAuthentication ∈ strapiRequestChainTags) ∧
    ∀ fuel, wiredUsersPermissionsAuthenticate fuel false = none := by
  constructor
  · simp [strapiRequestChainTags]
  · intro fuel
    induction fuel with
    | zero => rfl
    | succ n ih => simp [wiredUsersPermissionsAuthenticate, ih]

end StrapiSDK
